import Mathlib

/-!
Verification of the chewBBACA `CreateSchema` pipeline
(`CHEWBBACA/CreateSchema/create_schema.py` and the `run_create_schema`
entry point of `CHEWBBACA/chewBBACA.py`).

The development shallowly embeds the sequence-processing pipeline of
`create_schema_seed`.  Pure Python values are modelled as Lean values:

* a FASTA record is a pair `(seqid, sequence) : String × String`;
* Python `dict`s keyed by strings are association lists with
  insertion-order semantics;
* rational thresholds (BLAST score ratio, clustering similarity, the
  representative and intra-cluster filters) are pairs of naturals
  `(num, den)` and every comparison `x / y >= num / den` is embedded as
  the cross-multiplied natural-number comparison `num * y <= den * x`
  (the Python code compares IEEE floats; the thresholds and scores in
  play are exact small rationals, so the cross-multiplied comparison is
  the intended mathematical content);
* the external collaborators (the gene predictor, the translation
  table, the aligner and the database builder) are fields of an
  `Env` structure, as the specification treats them as black boxes.

Helpers of the repository that live in the `CHEWBBACA/utils` package
(`core_functions`, `iterables_manipulation`, `file_operations`,
`fasta_operations`, `sequence_manipulation`, `blast_wrapper`) are not
part of the two source files available; every definition that embeds
one of them carries a doc comment starting with `Modelled from the
spec:` and follows the wording of the specification for that helper.
-/

/-! ## String utilities

Python compares strings by Unicode code points and the pipeline sorts
identifiers with `sort_key=lambda x: x.lower()`.  `String.lt` of Lean
core is not kernel-reducible, so both comparisons are defined here on
the lists of character codes. -/

/-- Lexicographic strict order on lists of natural numbers, the
embedding of Python string comparison on code points. -/
def codesLt : List Nat → List Nat → Bool
  | [], [] => false
  | [], _ :: _ => true
  | _ :: _, [] => false
  | a :: as, b :: bs => if a < b then true else if b < a then false else codesLt as bs

/-- Code points of a string. -/
def strCodes (s : String) : List Nat :=
  s.data.map Char.toNat

/-- Python `a < b` on strings: code-point lexicographic comparison. -/
def strLt (a b : String) : Bool :=
  codesLt (strCodes a) (strCodes b)

/-- ASCII lower-casing of one code point, the part of `str.lower()`
exercised by filename prefixes and sequence identifiers. -/
def lowerCode (n : Nat) : Nat :=
  if 65 ≤ n ∧ n ≤ 90 then n + 32 else n

/-- Sort key used all over `create_schema.py`: the code points of the
lower-cased string (`sort_key=lambda x: x.lower()`). -/
def ciKey (s : String) : List Nat :=
  (strCodes s).map lowerCode

/-- Case-insensitive comparison of two strings, the order used by
`im.sort_iterable(..., sort_key=lambda x: x.lower())`. -/
def ciLt (a b : String) : Bool :=
  codesLt (ciKey a) (ciKey b)

/-- Stable insertion of a string into a case-insensitively sorted
list. -/
def insertCI (a : String) : List String → List String
  | [] => [a]
  | b :: bs => if ciLt b a then b :: insertCI a bs else a :: b :: bs

/-- Modelled from the spec: `im.sort_iterable(iterable, sort_key=lambda
x: x.lower())` is not under `src/`; per the specification it is the
total order over sequence identifiers (case-insensitive lexicographic)
used for reproducibility.  Embedded as a stable insertion sort by the
lower-cased code points. -/
def sortCI (l : List String) : List String :=
  l.foldr insertCI []

/-- Modelled from the spec: `im.divide_list_into_n_chunks` is not under
`src/`; the specification describes pooled outputs "merged into a
bounded number of concatenated chunk files" and work "partitioned into
independent, order-insensitive batches".  The list is divided into `n`
contiguous chunks of balanced size (`n = 0` yields one chunk). -/
def divideN : Nat → List α → List (List α)
  | 0, xs => [xs]
  | n + 1, xs =>
      let k := (xs.length + n) / (n + 1)
      xs.take k :: divideN n (xs.drop k)

/-- Modelled from the spec: `mo.map_async_parallelizer` is not under
`src/`.  Per the concurrency model of the specification, a stage
partitions its work into batches handed to `cpu` workers and blocks
until all batches complete, and the result must be identical regardless
of worker count; the observable behaviour is the concatenation of the
per-batch results in batch order. -/
def mapParallel (cpu : Nat) (f : α → β) (xs : List α) : List β :=
  ((divideN cpu xs).map (fun chunk => chunk.map f)).flatten

/-- Groups of at most `max n 1` consecutive elements; fuel-style
recursion on the length.  Embeds `fao.split_seqcount` (modelled from
the spec: the final alignment pass divides the FASTA file "into groups
of 100 sequences"). -/
def chunksOfSizeAux (n : Nat) : Nat → List α → List (List α)
  | 0, _ => []
  | _, [] => []
  | fuel + 1, x :: xs =>
      ((x :: xs).take (max n 1)) :: chunksOfSizeAux n fuel ((x :: xs).drop (max n 1))

/-- Splits a list into consecutive groups of at most `n` elements. -/
def chunksOfSize (n : Nat) (xs : List α) : List (List α) :=
  chunksOfSizeAux n xs.length xs

/-! ## Association-list embeddings of Python dicts -/

/-- A FASTA record: sequence identifier and sequence. -/
abbrev SeqRec := String × String

/-- First record with the given identifier, the embedding of reading a
sequence from an indexed FASTA file (`fao.index_fasta` /
`fao.get_sequences_by_id`; modelled from the spec: the sequence store
is keyed by identifier). -/
def lookupRec (id : String) (rs : List SeqRec) : Option String :=
  (rs.find? (fun r => r.1 = id)).map (fun r => r.2)

/-- Key-based deduplication keeping the first-encountered record per
key.  Modelled from the spec: `cf.exclude_duplicates` is not under
`src/`; the specification guarantees "a sequence's canonical surviving
identifier is the first-encountered identifier for that hash" with one
output record per distinct content hash (the content digest is embedded
as the content itself). -/
def dedupByKey (key : SeqRec → String) : List SeqRec → List SeqRec
  | [] => []
  | r :: rs =>
      r :: (dedupByKey key rs).filter (fun x => key x ≠ key r)

/-- Insert-or-update with Python dict semantics: an existing key keeps
its position and receives the new value, a new key is appended. -/
def dictUpsert (k v : String) : List (String × String) → List (String × String)
  | [] => [(k, v)]
  | e :: es => if e.1 = k then (k, v) :: es else e :: dictUpsert k v es

/-- Builds a Python dict from a list of key-value pairs (later values
for the same key overwrite earlier ones). -/
def dictOf (ps : List (String × String)) : List (String × String) :=
  ps.foldl (fun d p => dictUpsert p.1 p.2 d) []

/-- Characters after the last path separator. -/
def afterLastSlash (cs : List Char) : List Char :=
  cs.foldl (fun acc c => if c = '/' then [] else acc ++ [c]) []

/-- Characters before the first dot. -/
def beforeFirstDot : List Char → List Char
  | [] => []
  | c :: cs => if c = '.' then [] else c :: beforeFirstDot cs

/-- Modelled from the spec: `fo.file_basename` is not under `src/`;
the filename component of a path. -/
def fileBasename (p : String) : String :=
  String.mk (afterLastSlash p.data)

/-- Modelled from the spec: the composition of `fo.file_basename` and
`fo.split_joiner(v, [0], '.')` (neither under `src/`) derives "each
genome's external id from the filename prefix up to the first
delimiter": the basename substring before the first dot. -/
def genomeStem (p : String) : String :=
  String.mk (beforeFirstDot (fileBasename p).data)

/-- Insertion into an association list only when the key is absent:
the effect of one `dict` comprehension step of
`im.mapping_function` keyed by full path (duplicate paths collapse). -/
def insertNewKey (d : List (String × String)) (e : String × String) :
    List (String × String) :=
  if d.any (fun x => x.1 = e.1) then d else d ++ [e]

/-- Recursion building the `input_basenames` dict. -/
def buildBasenames : List String → List (String × String) → List (String × String)
  | [], acc => acc
  | f :: fs, acc => buildBasenames fs (insertNewKey acc (f, genomeStem f))

/-- The `input_basenames` dict of `create_schema_seed` (lines 184-187):
full path mapped to the unique filename prefix. -/
def inputBasenames (files : List String) : List (String × String) :=
  buildBasenames files []

/-- The `basename_list` of line 190: the values of the dict. -/
def stemValues (files : List String) : List String :=
  (inputBasenames files).map Prod.snd

/-- The guard of line 191: `len(set(basename_list)) < len(fasta_files)`. -/
def repeatedStemsFire (files : List String) : Bool :=
  decide ((stemValues files).dedup.length < files.length)

/-- The `repeated_basenames` report of lines 192-195: every prefix
occurring more than once, with its occurrence count. -/
def repeatedStemsReport (files : List String) : List (String × Nat) :=
  (stemValues files).dedup.filterMap
    (fun b => if 1 < (stemValues files).count b
              then some (b, (stemValues files).count b) else none)

/-- Modelled from the spec: `im.integer_mapping` is not under `src/`;
the registry "produces a bijective integer-id mapping" with dense
integer ids, assigning `1, 2, ...` in the order the values are
received (the callers in `src/` sort the inputs beforehand to fix that
order). -/
def integerMapping (vs : List String) : List (String × Nat) :=
  vs.enum.map (fun p => (p.2, p.1 + 1))

/-- External genome identifiers in the order the registry receives
them: prefixes of the case-insensitively sorted input paths. -/
def registryStemOrder (files : List String) : List String :=
  stemValues (sortCI files)

/-- The genome registry built by `main` (line 575 sorts the paths) and
`create_schema_seed` (line 277 maps the prefixes to integers). -/
def genomeIntegerMapping (files : List String) : List (String × Nat) :=
  integerMapping (registryStemOrder files)

/-! ## External collaborators -/

/-- The external collaborators of the pipeline, per section 6 of the
specification: the CDS predictor, the translation table, the aligner
(raw alignment scores and per-invocation error streams), the database
builder (error stream) and the identifier sanitisation table
(`ct.CHAR_REPLACEMENTS`, not under `src/`).  They are inputs of the
embedding because the code treats them as black boxes. -/
structure Env where
  predict : Option String → String → String → Except String (List SeqRec)
  readCds : String → List SeqRec
  tr : String → Option String
  score : String → String → Nat
  makeDbStderr : String
  runBlastStderr : List String → List String
  sanitize : String → String

/-- Outcome of the CDS-acquisition stage: the surviving genome
registry, the failure-report lines and the per-genome coding-sequence
records. -/
structure AcqResult where
  registry : List (String × String)
  failedLines : List String
  cdsPerGenome : List (List SeqRec)
deriving DecidableEq, Repr, Inhabited

/-- Fatal exits of `create_schema_seed`: the duplicate-prefix exit
(lines 196-199), the no-CDS exit (lines 227-230), the database-builder
exit (lines 476-477) and the aligner exit (lines 504-505). -/
inductive PipelineError where
  | repeatedStems (report : List (String × Nat))
  | noCds
  | dbError (msg : String)
  | blastError (msgs : List String)
deriving DecidableEq, Repr

/-- Modelled from the spec: `fao.integer_headers` and the CDS
extraction are not under `src/`; coding sequences are renamed "into a
canonical `<genome-prefix>-protein_<n>` scheme so that later
provenance tracking works uniformly". -/
def canonicalHeaders (stem : String) (rs : List SeqRec) : List SeqRec :=
  rs.enum.map (fun q => (stem ++ "-protein_" ++ toString (q.1 + 1), q.2.2))

/-- Per-genome predictor outcomes gathered by the worker pool: input
path, genome prefix and the predictor's verdict. -/
def predictResults (env : Env) (cpu : Nat) (ptf : Option String) (mode : String)
    (bns : List (String × String)) :
    List (String × String × Except String (List SeqRec)) :=
  mapParallel cpu (fun pb => (pb.1, pb.2, env.predict ptf mode pb.1)) bns

/-- The `failed` dict of line 221: input and failure reason for every
genome the predictor rejected. -/
def predictFailed (rs : List (String × String × Except String (List SeqRec))) :
    List (String × String) :=
  rs.filterMap (fun r => match r.2.2 with
    | .error m => some (r.1, m)
    | .ok _ => none)

/-- The `cds_fastas` list of line 221: one renamed coding-sequence
file per genome the predictor accepted. -/
def predictFastas (rs : List (String × String × Except String (List SeqRec))) :
    List (List SeqRec) :=
  rs.filterMap (fun r => match r.2.2 with
    | .ok recs => some (canonicalHeaders r.2.1 recs)
    | .error _ => none)

/-- Predict-mode acquisition, embedding lines 207-233 and 264-272: the
run exits when `cds_fastas` is empty, otherwise failed genomes are
pruned from the registry and the failure-report lines are written. -/
def acquirePredict (env : Env) (cpu : Nat) (ptf : Option String) (mode : String)
    (bns : List (String × String)) : Except PipelineError AcqResult :=
  if (predictFastas (predictResults env cpu ptf mode bns)).length = 0 then
    .error .noCds
  else
    .ok { registry := bns.filter (fun pb =>
            ! ((predictFailed (predictResults env cpu ptf mode bns)).map
                Prod.fst).contains pb.1),
          failedLines := (predictFailed (predictResults env cpu ptf mode bns)).map
            (fun f => f.1 ++ "\t" ++ f.2),
          cdsPerGenome := predictFastas (predictResults env cpu ptf mode bns) }

/-- Pass-through acquisition, embedding lines 235-262: headers of the
provided coding sequences are renamed; no genome can fail. -/
def acquirePassthrough (env : Env) (cpu : Nat) (bns : List (String × String)) :
    Except PipelineError AcqResult :=
  .ok { registry := bns, failedLines := [],
        cdsPerGenome := mapParallel cpu
          (fun pb => canonicalHeaders pb.2 (env.readCds pb.1)) bns }

/-- CDS acquisition (lines 205-272), dispatching on `cds_input`. -/
def acquireCds (env : Env) (cpu : Nat) (ptf : Option String) (mode : String)
    (cdsInput : Bool) (bns : List (String × String)) : Except PipelineError AcqResult :=
  if cdsInput then acquirePassthrough env cpu bns
  else acquirePredict env cpu ptf mode bns

/-! ## Deduplication, small-sequence and translation stages -/

/-- The 15 concatenated chunk files of lines 280-293. -/
def cdsChunkFiles (perGenome : List (List SeqRec)) : List (List SeqRec) :=
  (divideN 15 perGenome).map List.flatten

/-- The distinct DNA records of lines 303-317 (`cf.exclude_duplicates`
over the chunk files followed by `fao.index_fasta`): one record per
distinct sequence content, first-encountered identifier wins. -/
def dnaDistinct (perGenome : List (List SeqRec)) : List SeqRec :=
  dedupByKey Prod.snd (cdsChunkFiles perGenome).flatten

/-- Modelled from the spec: `cf.exclude_small` is not under `src/`; it
"excludes sequences whose nucleotide length is below `min_len`; length
is measured in raw bases". -/
def smallSeqids (minLen : Nat) (rs : List SeqRec) : List String :=
  (rs.filter (fun r => r.2.length < minLen)).map Prod.fst

/-- Report lines of the small-length exclusions (`id<TAB>reason`). -/
def smallLines (minLen : Nat) (rs : List SeqRec) : List String :=
  (rs.filter (fun r => r.2.length < minLen)).map
    (fun r => r.1 ++ "\t" ++ "smaller than " ++ toString minLen ++ " nucleotides")

/-- The surviving identifiers after the small-sequence exclusion,
embedding lines 327-328: set difference followed by the
case-insensitive sort. -/
def poolAfterSmall (minLen : Nat) (rs : List SeqRec) : List String :=
  sortCI (((rs.map Prod.fst).filter (fun i => decide (i ∉ smallSeqids minLen rs))).dedup)

/-- Modelled from the spec: `cf.translate_sequences` is not under
`src/`; a sequence is untranslatable when the external genetic-code
translation fails (internal stop codon) or when the final protein is
shorter than `min_len/3`; otherwise its record carries the translated
protein under the same identifier. -/
def translateOne (env : Env) (minLen : Nat) (rs : List SeqRec) (id : String) :
    Option SeqRec :=
  match lookupRec id rs with
  | none => none
  | some sq =>
      match env.tr sq with
      | none => none
      | some p => if p.length < minLen / 3 then none else some (id, p)

/-- Protein records of the translatable surviving sequences
(lines 334-337), translated by the worker pool. -/
def translatedRecords (env : Env) (minLen cpu : Nat) (rs : List SeqRec)
    (ids : List String) : List SeqRec :=
  (mapParallel cpu (translateOne env minLen rs) ids).reduceOption

/-- Identifiers that could not be translated. -/
def untranslatableIds (env : Env) (minLen : Nat) (rs : List SeqRec)
    (ids : List String) : List String :=
  ids.filter (fun i => (translateOne env minLen rs i).isNone)

/-- Report lines of the translation exclusions (`id<TAB>reason`). -/
def untranslatableLines (env : Env) (minLen : Nat) (rs : List SeqRec)
    (ids : List String) : List String :=
  (untranslatableIds env minLen rs ids).map (fun i => i ++ "\t" ++ "untranslatable")

/-- Distinct protein records of lines 350-360: protein-level
deduplication of the translated records, first identifier wins. -/
def proteinDistinct (env : Env) (minLen cpu : Nat) (rs : List SeqRec)
    (ids : List String) : List SeqRec :=
  dedupByKey Prod.snd (translatedRecords env minLen cpu rs ids)

/-! ## Minimizer clustering engine

Modelled from the spec (section 4.5): `cf.cluster_sequences` is not
under `src/`.  Minimizers are the lexicographically smallest k-length
substrings within every sliding window of `window` consecutive k-mers;
sequences are processed in length-descending (then lexicographic)
order; a sequence joins the highest-scoring existing cluster whose
shared-minimizer proportion reaches the similarity threshold and
otherwise founds a new cluster.  Per section 5 the outcome is required
to be identical for every worker count and batch size, so the engine
is embedded as its sequential semantics. -/

/-- All k-length substrings of a protein. -/
def kmerList (k : Nat) (s : String) : List String :=
  (List.range (s.length + 1 - k)).map (fun i => (s.drop i).take k)

/-- Lexicographically smallest string among `a :: l`. -/
def strMinOf (a : String) (l : List String) : String :=
  l.foldl (fun m x => if strLt x m then x else m) a

/-- Distinct minimizers of a protein: smallest k-mer of every window
of `w` consecutive k-mers (one window when the sequence has fewer
k-mers than the window size). -/
def minimizerSet (k w : Nat) (s : String) : List String :=
  match kmerList k s with
  | [] => []
  | h :: t =>
      let wn := (h :: t).length + 1 - w
      if wn = 0 then [strMinOf h t]
      else ((List.range wn).map (fun i =>
        match ((h :: t).drop i).take w with
        | [] => h
        | x :: xs => strMinOf x xs)).dedup

/-- Number of query minimizers shared with a reference set. -/
def sharedCount (q r : List String) : Nat :=
  (q.filter (fun m => decide (m ∈ r))).length

/-- Cross-multiplied threshold comparison
`shared / qlen >= num / den`. -/
def propGeB (num den shared qlen : Nat) : Bool :=
  decide (num * qlen ≤ den * shared)

/-- A candidate-locus cluster: seed identifier, the seed's minimizer
set and the ordered member list (seed first). -/
structure ProtCluster where
  repId : String
  repMins : List String
  members : List String
deriving DecidableEq, Repr, Inhabited

/-- Processing priority: longer proteins first, ties by the
lexicographic order of identifiers. -/
def protBefore (a b : SeqRec) : Bool :=
  if a.2.length = b.2.length then strLt a.1 b.1 else decide (b.2.length < a.2.length)

/-- Insertion into a length-descending sorted record list. -/
def insertByLen (a : SeqRec) : List SeqRec → List SeqRec
  | [] => [a]
  | b :: bs => if protBefore b a then b :: insertByLen a bs else a :: b :: bs

/-- Length-descending (then lexicographic) sort of protein records. -/
def sortByLenDesc (l : List SeqRec) : List SeqRec :=
  l.foldr insertByLen []

/-- Appends a member to the cluster at position `i`. -/
def addMember (cs : List ProtCluster) (i : Nat) (id : String) : List ProtCluster :=
  cs.enum.map (fun q => if q.1 = i then
    { q.2 with members := q.2.members ++ [id] } else q.2)

/-- Position of the highest-scoring qualifying cluster for a query
minimizer set (first position wins ties). -/
def bestClusterIdx (simn simd : Nat) (q : List String) (cs : List ProtCluster) :
    Option Nat :=
  let qual := (cs.enum.map (fun p => (p.1, sharedCount q p.2.repMins))).filter
      (fun p => propGeB simn simd p.2 q.length)
  match qual with
  | [] => none
  | h :: t => some ((t.foldl (fun b x => if b.2 < x.2 then x else b) h).1)

/-- One clustering step for a protein record. -/
def clusterStep (k w simn simd : Nat) (cs : List ProtCluster) (r : SeqRec) :
    List ProtCluster :=
  let q := minimizerSet k w r.2
  match bestClusterIdx simn simd q cs with
  | some i => addMember cs i r.1
  | none => cs ++ [{ repId := r.1, repMins := q, members := [r.1] }]

/-- The clustering engine: sequential fold over the deterministically
ordered protein records. -/
def cluster_sequences (k w simn simd : Nat) (prots : List SeqRec) :
    List ProtCluster :=
  (sortByLenDesc prots).foldl (clusterStep k w simn simd) []

/-! ## Similarity pruning

Modelled from the spec (section 4.6): `cf.cluster_representative_filter`
and `cf.cluster_intra_filter` are not under `src/`. -/

/-- Protein sequence of an identifier in the distinct-protein store. -/
def seqOf (rs : List SeqRec) (id : String) : String :=
  (lookupRec id rs).getD ""

/-- Non-seed members whose shared-minimizer proportion against their
cluster's representative reaches the threshold. -/
def repFilterExcluded (k w rfn rfd : Nat) (prots : List SeqRec)
    (cs : List ProtCluster) : List String :=
  (cs.map (fun c =>
    (c.members.filter (fun m => decide (m ≠ c.repId))).filter (fun m =>
      propGeB rfn rfd
        (sharedCount (minimizerSet k w (seqOf prots m)) c.repMins)
        (minimizerSet k w (seqOf prots m)).length))).flatten

/-- Representative filter: excluded members are removed, clusters left
with a single member are recorded as singletons and the remaining
multi-member clusters continue. -/
def cluster_representative_filter (k w rfn rfd : Nat) (prots : List SeqRec)
    (cs : List ProtCluster) : List ProtCluster × List String × List String :=
  let excl := repFilterExcluded k w rfn rfd prots cs
  let pruned := cs.map (fun c =>
    { c with members := c.members.filter (fun m => decide (m ∉ excl)) })
  (pruned.filter (fun c => 1 < c.members.length), excl,
   (pruned.filter (fun c => c.members.length = 1)).map ProtCluster.repId)

/-- Walks the length-descending non-seed members; a member sharing the
threshold proportion of its minimizers with an earlier (equal or
longer, not yet excluded) member is excluded. -/
def intraScan (itn itd : Nat) (kept : List (String × List String)) :
    List (String × List String) → List String
  | [] => []
  | mq :: rest =>
      if kept.any (fun kq => propGeB itn itd (sharedCount mq.2 kq.2) mq.2.length) then
        mq.1 :: intraScan itn itd kept rest
      else intraScan itn itd (kept ++ [mq]) rest

/-- Members excluded by the intra-cluster filter. -/
def intraExcluded (k w itn itd : Nat) (prots : List SeqRec)
    (cs : List ProtCluster) : List String :=
  (cs.map (fun c =>
    intraScan itn itd []
      ((sortByLenDesc ((c.members.filter (fun m => decide (m ≠ c.repId))).map
          (fun m => (m, seqOf prots m)))).map
        (fun r => (r.1, minimizerSet k w r.2))))).flatten

/-- Intra-cluster filter: pairwise minimizer pruning inside every
cluster. -/
def cluster_intra_filter (k w itn itd : Nat) (prots : List SeqRec)
    (cs : List ProtCluster) : List ProtCluster × List String :=
  let excl := intraExcluded k w itn itd prots cs
  (cs.map (fun c =>
    { c with members := c.members.filter (fun m => decide (m ∉ excl)) }), excl)

/-! ## BSR homology filtering -/

/-- Cross-multiplied Blast-Score-Ratio comparison
`raw / self >= num / den`: the embedding of `BSR >= threshold` for a
raw alignment score and the query's self-alignment score. -/
def bsrGeB (tn td raw self : Nat) : Bool :=
  decide (tn * self ≤ td * raw)

/-- Modelled from the spec: the cluster-local pass of
`cf.blast_clusters` plus `sm.apply_bsr` (lines 422-450, helpers not
under `src/`): in every cluster with at least two surviving
candidates, a member whose BSR against the representative reaches the
threshold is excluded. -/
def clusterLocalBsrExcluded (tn td : Nat) (score : String → String → Nat)
    (cs : List ProtCluster) : List String :=
  (cs.map (fun c =>
    if 2 ≤ c.members.length then
      (c.members.filter (fun m => decide (m ≠ c.repId))).filter
        (fun m => bsrGeB tn td (score m c.repId) (score c.repId c.repId))
    else [])).flatten

/-- A pair of pooled candidates offends when the BSR of either
orientation of the all-vs-all alignment reaches the threshold. -/
def globalOffends (tn td : Nat) (score : String → String → Nat) (a b : String) :
    Bool :=
  bsrGeB tn td (score a b) (score a a) || bsrGeB tn td (score b a) (score b b)

/-- Modelled from the spec: `sm.apply_bsr` for the final all-vs-all
pass (lines 511-515, helper not under `src/`): "any pair with BSR >=
threshold results in exclusion of one member (deterministic tie-break:
the lexicographically greater identifier is dropped)". -/
def globalExcludedB (tn td : Nat) (score : String → String → Nat)
    (pool : List String) (s : String) : Bool :=
  pool.any (fun t => decide (t ≠ s) && globalOffends tn td score s t && strLt t s)

/-- Survivors of the final global BSR pass, embedding line 517:
`schema_seqids = list(set(schema_seqids) - set(final_excluded))`. -/
def globalBsrSurvivors (tn td : Nat) (score : String → String → Nat)
    (pool : List String) : List String :=
  pool.filter (fun s => ! globalExcludedB tn td score pool s)

/-! ## Schema assembly -/

/-- The FASTA record written for a locus representative:
`fao.fasta_str_record(ct.FASTA_RECORD_TEMPLATE, [k+'_1', v])`
(modelled from the spec: a "single record whose header encodes the
locus name and an allele index of 1"). -/
def fastaAllele1 (name sq : String) : String :=
  ">" ++ name ++ "_1" ++ "\n" ++ sq

/-- Embeds `create_schema_structure` (lines 133-174): identifiers are
sanitised, collected into a dict, and one FASTA file per locus is
written into the schema directory plus a mirrored `short` file (files
are `(basename, content)` pairs; `fo.create_short` is modelled from
the spec's schema directory layout `<locus>_short.fasta`). -/
def create_schema_structure (sanitize : String → String) (reps : List SeqRec) :
    List (String × String) × List (String × String) :=
  let d := dictOf (reps.map (fun r => (sanitize r.1, r.2)))
  (d.map (fun kv => (kv.1 ++ ".fasta", fastaAllele1 kv.1 kv.2)),
   d.map (fun kv => (kv.1 ++ "_short.fasta", fastaAllele1 kv.1 kv.2)))

/-! ## The full schema-seed pipeline -/

/-- Parameters of `create_schema_seed` other than the training file,
the size threshold and the worker count, which stay separate arguments
(exactly the roles probed by the hyperproperty claims).  The two
threshold components of each rational parameter are kept as `(num,
den)` pairs. -/
structure Params where
  bsr : Nat × Nat
  minimum_length : Nat
  translation_table : Nat
  word_size : Nat
  window_size : Nat
  clustering_sim : Nat × Nat
  representative_filter : Nat × Nat
  intra_filter : Nat × Nat
  prodigal_mode : String
  cds_input : Bool
deriving DecidableEq, Repr

/-- Candidate pool entering the final all-vs-all BLAST, embedding
lines 299-457: DNA deduplication, small-sequence exclusion,
translation, protein deduplication, clustering, representative and
intra-cluster pruning, the cluster-local BSR pass and the final
case-insensitive sort of line 457. -/
def corePool (env : Env) (p : Params) (cpu : Nat) (acq : AcqResult) : List String :=
  let recs := dnaDistinct acq.cdsPerGenome
  let s0 := poolAfterSmall p.minimum_length recs
  let prots := proteinDistinct env p.minimum_length cpu recs s0
  let s1 := sortCI (prots.map Prod.fst)
  let cl0 := cluster_sequences p.word_size p.window_size
      p.clustering_sim.1 p.clustering_sim.2 prots
  let rfr := cluster_representative_filter p.word_size p.window_size
      p.representative_filter.1 p.representative_filter.2 prots cl0
  let s2 := s1.filter (fun i => decide (i ∉ rfr.2.1))
  let ir := cluster_intra_filter p.word_size p.window_size
      p.intra_filter.1 p.intra_filter.2 prots rfr.1
  let s3 := s2.filter (fun i => decide (i ∉ ir.2))
  let lexcl := if ir.1.isEmpty then []
               else clusterLocalBsrExcluded p.bsr.1 p.bsr.2 env.score ir.1
  let s4 := s3.filter (fun i => decide (i ∉ lexcl))
  sortCI s4

/-- Results of a successful `create_schema_seed` run: the surviving
genome registry, the failure and diagnostics report lines, the
distinct DNA store, the pool entering the final BLAST, the final locus
identifiers and the written schema files. -/
structure SeedResult where
  registry : List (String × String)
  failedLines : List String
  invalidLines : List String
  distinctRecs : List SeqRec
  finalPool : List String
  finalIds : List String
  mainFiles : List (String × String)
  shortFiles : List (String × String)
deriving DecidableEq, Repr, Inhabited

/-- Embeds `create_schema_seed` (lines 177-543): the duplicate-prefix
guard, CDS acquisition, the preprocessing and clustering pipeline, the
fatal checks on the database-builder and aligner error streams, the
final global BSR pass and the schema assembly.  The `size_threshold`
argument is part of the source signature and, as in the source body,
is never read. -/
def create_schema_seed (env : Env) (fasta_files : List String)
    (ptf_path : Option String) (p : Params) (size_threshold : Nat × Nat)
    (cpu_cores : Nat) : Except PipelineError SeedResult :=
  if repeatedStemsFire fasta_files then
    .error (.repeatedStems (repeatedStemsReport fasta_files))
  else
    match acquireCds env cpu_cores ptf_path p.prodigal_mode p.cds_input
        (inputBasenames fasta_files) with
    | .error e => .error e
    | .ok acq =>
        let recs := dnaDistinct acq.cdsPerGenome
        let pool := corePool env p cpu_cores acq
        if 0 < env.makeDbStderr.length then
          .error (.dbError env.makeDbStderr)
        else
          let errs := (mapParallel cpu_cores env.runBlastStderr
              (chunksOfSize 100 pool)).flatten
          if 0 < errs.length then
            .error (.blastError errs)
          else
            let finals := globalBsrSurvivors p.bsr.1 p.bsr.2 env.score pool
            let reps := finals.filterMap
                (fun i => (lookupRec i recs).map (fun sq => (i, sq)))
            let schema := create_schema_structure env.sanitize reps
            .ok { registry := acq.registry,
                  failedLines := acq.failedLines,
                  invalidLines :=
                    untranslatableLines env p.minimum_length recs
                      (poolAfterSmall p.minimum_length recs) ++
                    smallLines p.minimum_length recs,
                  distinctRecs := recs,
                  finalPool := pool,
                  finalIds := finals,
                  mainFiles := schema.1,
                  shortFiles := schema.2 }

/-! ## The `main` entry points -/

/-- Embeds `create_schema.main` lines 565-569: in `meta` mode a
provided training file is dropped before the pipeline runs. -/
def mainTrainingFile (prodigal_mode : String) (ptf_path : Option String) :
    Option String :=
  if prodigal_mode = "meta" ∧ ptf_path.isSome then none else ptf_path

/-- Embeds `create_schema.main` lines 546-582: the input paths are
sorted case-insensitively (line 575), the training file is adjusted
for `meta` mode and `create_schema_seed` runs. -/
def create_schema_main (env : Env) (input_files : List String)
    (ptf_path : Option String) (p : Params) (size_threshold : Nat × Nat)
    (cpu_cores : Nat) : Except PipelineError SeedResult :=
  create_schema_seed env (sortCI input_files)
    (mainTrainingFile p.prodigal_mode ptf_path) p size_threshold cpu_cores

/-- The schema config written by `run_create_schema`
(`chewBBACA.py` lines 221-227).  Modelled from the spec:
`pv.write_schema_config` is not under `src/`; the config persists the
parameter values passed to it, in particular the size threshold. -/
structure SchemaConfig where
  bsr : Nat × Nat
  ptf_hash : Option Nat
  translation_table : Nat
  minimum_locus_length : Nat
  chewie_version : String
  size_threshold : Nat × Nat
  word_size : Nat
  window_size : Nat
  clustering_sim : Nat × Nat
  representative_filter : Nat × Nat
  intra_filter : Nat × Nat
deriving DecidableEq, Repr

/-- Builds the schema config record from the run arguments. -/
def write_schema_config (bsr : Nat × Nat) (ptfHash : Option Nat)
    (tt msl : Nat) (ver : String) (st : Nat × Nat) (ws wins : Nat)
    (cs rf itf : Nat × Nat) : SchemaConfig :=
  { bsr := bsr, ptf_hash := ptfHash, translation_table := tt,
    minimum_locus_length := msl, chewie_version := ver,
    size_threshold := st, word_size := ws, window_size := wins,
    clustering_sim := cs, representative_filter := rf, intra_filter := itf }

/-- Post-pipeline training-file handling of `run_create_schema`
(`chewBBACA.py` lines 214-219): `args.ptf_path` (the original,
unmodified argument) controls whether the training file is copied into
the schema directory and hashed into the config.  The pair returned is
(copied into schema directory, recorded hash). -/
def runCreateSchemaPtf (hashPtf : String → Nat) (ptf_path : Option String) :
    Bool × Option Nat :=
  (ptf_path.isSome, ptf_path.map hashPtf)

/-! ## Inversion of a successful pipeline run -/

/-- Boolean success test for `Except` values. -/
def isOkE : Except ε α → Bool
  | .ok _ => true
  | .error _ => false

/-- A tiny concrete collaborator environment for a successful run in
pass-through mode: two genomes, one coding sequence each, identity
translation, cross-alignment scores far below the self scores, and
silent external tools. -/
def testEnv : Env :=
  { predict := fun _ _ _ => .error "prediction skipped",
    readCds := fun pth => if pth = "a.fasta" then [("cds1", "ACGTACGT")]
               else [("cds2", "TTTTGGGG")],
    tr := fun sq => some sq,
    score := fun x y => if x = y then 100 else 10,
    makeDbStderr := "",
    runBlastStderr := fun _ => [],
    sanitize := fun s => s }

/-- Small concrete parameter set (BSR 6/10, clustering similarity 1/2,
filters 9/10). -/
def testParams : Params :=
  { bsr := (6, 10), minimum_length := 4, translation_table := 11,
    word_size := 3, window_size := 2, clustering_sim := (1, 2),
    representative_filter := (9, 10), intra_filter := (9, 10),
    prodigal_mode := "single", cds_input := true }

/-- Concrete input paths of the successful run. -/
def testFiles : List String := ["a.fasta", "b.fasta"]

/-- Result of the successful concrete run. -/
def testRes : SeedResult :=
  match create_schema_seed testEnv testFiles none testParams (2, 10) 4 with
  | .ok r => r
  | .error _ => default

/-- Concrete inputs sharing the prefix `a`. -/
def dupFiles : List String := ["x/a.fasta", "y/a.fna"]

/-- A predictor environment where genome `a` succeeds and genome `b`
fails. -/
def predEnv : Env :=
  { predict := fun _ _ pth => if pth = "a.fasta" then .ok [("g1", "ACGT")]
               else .error "zero contigs",
    readCds := fun _ => [],
    tr := fun sq => some sq,
    score := fun _ _ => 0,
    makeDbStderr := "",
    runBlastStderr := fun _ => [],
    sanitize := fun s => s }

/-- Registry entering predict-mode acquisition. -/
def predBns : List (String × String) := [("a.fasta", "a"), ("b.fasta", "b")]

/-- Two concrete locus representatives. -/
def demoReps : List SeqRec := [("locA", "ACGT"), ("locB", "GGTT")]

/-- The concrete parameters switched to `meta` mode. -/
def metaParams : Params := { testParams with prodigal_mode := "meta" }

theorem mem_insertCI {a x : String} {l : List String} :
    x ∈ insertCI a l ↔ x = a ∨ x ∈ l := by
  induction l with
  | nil => simp [insertCI]
  | cons b bs ih =>
      cases h : ciLt b a with
      | true =>
          simp only [insertCI, h, if_true, List.mem_cons, ih]
          tauto
      | false => simp [insertCI, h]

theorem mem_sortCI {x : String} {l : List String} :
    x ∈ sortCI l ↔ x ∈ l := by
  induction l with
  | nil => simp [sortCI]
  | cons b bs ih =>
      simp only [sortCI, List.foldr] at *
      rw [mem_insertCI, ih]
      simp

/-- Totality of `codesLt`: two lists that are not strictly ordered in
either direction are equal. -/
theorem codesLt_total : ∀ {x y : List Nat},
    codesLt x y = false → codesLt y x = false → x = y := by
  intro x
  induction x with
  | nil =>
      intro y hxy hyx
      cases y with
      | nil => rfl
      | cons b bs => simp [codesLt] at hxy
  | cons a as ih =>
      intro y hxy hyx
      cases y with
      | nil => simp [codesLt] at hyx
      | cons b bs =>
          simp only [codesLt] at hxy hyx
          rcases Nat.lt_trichotomy a b with h | h | h
          · simp [h] at hxy
          · subst h
            simp [Nat.lt_irrefl] at hxy hyx
            rw [ih hxy hyx]
          · simp [h, Nat.lt_asymm h] at hyx

theorem charToNat_inj : Function.Injective Char.toNat :=
  StrictMono.injective fun _ _ h => h

theorem strCodes_inj {a b : String} (h : strCodes a = strCodes b) : a = b := by
  have hdata : a.data = b.data :=
    List.map_injective_iff.mpr charToNat_inj h
  exact String.ext hdata

/-- Totality of the Python string order: distinct strings compare
strictly in one direction. -/
theorem strLt_total {a b : String} (h : a ≠ b) :
    strLt a b = true ∨ strLt b a = true := by
  by_contra hc
  push_neg at hc
  rcases hc with ⟨h1, h2⟩
  have h1' : strLt a b = false := by
    cases hv : strLt a b with
    | false => rfl
    | true => exact absurd hv h1
  have h2' : strLt b a = false := by
    cases hv : strLt b a with
    | false => rfl
    | true => exact absurd hv h2
  exact h (strCodes_inj (codesLt_total h1' h2'))

/-! ## Chunking and the worker-pool model -/

theorem divideN_flatten : ∀ (n : Nat) (xs : List α), (divideN n xs).flatten = xs := by
  intro n
  induction n with
  | zero => intro xs; simp [divideN]
  | succ m ih =>
      intro xs
      simp only [divideN, List.flatten_cons, ih]
      exact List.take_append_drop _ xs

/-- The bulk-synchronous worker pool computes exactly the sequential
map, for every worker count. -/
theorem mapParallel_eq_map (cpu : Nat) (f : α → β) (xs : List α) :
    mapParallel cpu f xs = xs.map f := by
  unfold mapParallel
  rw [← List.map_flatten, divideN_flatten]

theorem lookupRec_isSome {id : String} {rs : List SeqRec}
    (h : id ∈ rs.map Prod.fst) : (lookupRec id rs).isSome := by
  rcases List.mem_map.mp h with ⟨r, hr, hid⟩
  unfold lookupRec
  have h2 : (rs.find? (fun r => r.1 = id)).isSome :=
    List.find?_isSome.mpr ⟨r, hr, by simp [hid]⟩
  rcases Option.isSome_iff_exists.mp h2 with ⟨v, hv⟩
  simp [hv]

theorem lookupRec_some_mem {id sq : String} {rs : List SeqRec}
    (h : lookupRec id rs = some sq) : (id, sq) ∈ rs := by
  unfold lookupRec at h
  rcases Option.map_eq_some'.mp h with ⟨r, hfind, hsq⟩
  have hmem := List.mem_of_find?_eq_some hfind
  have hp := List.find?_some hfind
  simp only [decide_eq_true_eq] at hp
  have : r = (id, sq) := by
    cases r
    simp only at hp hsq
    simp [hp, hsq]
  rw [← this]
  exact hmem

theorem dedupByKey_subset {key : SeqRec → String} :
    ∀ {rs : List SeqRec} {x : SeqRec}, x ∈ dedupByKey key rs → x ∈ rs := by
  intro rs
  induction rs with
  | nil => intro x h; simp [dedupByKey] at h
  | cons r rs ih =>
      intro x h
      simp only [dedupByKey, List.mem_cons] at h
      rcases h with h | h
      · simp [h]
      · exact List.mem_cons_of_mem _ (ih (List.mem_of_mem_filter h))

theorem dictUpsert_fresh {k v : String} {d : List (String × String)}
    (h : k ∉ d.map Prod.fst) : dictUpsert k v d = d ++ [(k, v)] := by
  induction d with
  | nil => simp [dictUpsert]
  | cons e es ih =>
      simp only [List.map_cons, List.mem_cons, not_or] at h
      have hne : e.1 ≠ k := fun hc => h.1 hc.symm
      simp [dictUpsert, hne, ih h.2]

theorem dictOf_nodup_keys :
    ∀ {ps acc : List (String × String)},
      (ps.map Prod.fst).Nodup → (∀ p ∈ ps, p.1 ∉ acc.map Prod.fst) →
      ps.foldl (fun d p => dictUpsert p.1 p.2 d) acc = acc ++ ps := by
  intro ps
  induction ps with
  | nil => intro acc _ _; simp
  | cons p ps ih =>
      intro acc hnd hfresh
      simp only [List.foldl_cons]
      have h1 : p.1 ∉ acc.map Prod.fst := hfresh p (List.mem_cons_self p ps)
      rw [dictUpsert_fresh h1]
      have hnd' : (ps.map Prod.fst).Nodup := by
        simp only [List.map_cons, List.nodup_cons] at hnd
        exact hnd.2
      have hfresh' : ∀ q ∈ ps, q.1 ∉ (acc ++ [p]).map Prod.fst := by
        intro q hq
        simp only [List.map_append, List.mem_append, List.map_cons, List.map_nil,
          List.mem_singleton, not_or]
        constructor
        · exact hfresh q (List.mem_cons_of_mem p hq)
        · intro hc
          simp only [List.map_cons, List.nodup_cons] at hnd
          exact hnd.1 (hc ▸ List.mem_map_of_mem Prod.fst hq)
      rw [ih hnd' hfresh']
      simp

/-- On a list whose keys are already distinct, the dict construction is
the identity. -/
theorem dictOf_of_nodup {ps : List (String × String)}
    (hnd : (ps.map Prod.fst).Nodup) : dictOf ps = ps := by
  unfold dictOf
  have := @dictOf_nodup_keys ps [] hnd (by simp)
  simpa using this

/-! ## Filename handling and the duplicate-prefix check

Embeds `create_schema_seed` lines 183-199: every input path is mapped
to its unique identifier, the substring of the filename before the
first dot, and the process exits when two inputs share that
identifier. -/

theorem buildBasenames_length : ∀ (fs : List String) (acc : List (String × String)),
    (buildBasenames fs acc).length ≤ acc.length + fs.length := by
  intro fs
  induction fs with
  | nil => intro acc; simp [buildBasenames]
  | cons f fs ih =>
      intro acc
      simp only [buildBasenames]
      refine le_trans (ih _) ?_
      unfold insertNewKey
      by_cases h : (acc.any (fun x => x.1 = f)) = true
      · rw [if_pos h]
        simp only [List.length_cons]
        omega
      · rw [if_neg h]
        simp only [List.length_append, List.length_cons, List.length_nil]
        omega

theorem buildBasenames_mono : ∀ (fs : List String) (acc : List (String × String))
    (e : String × String), e ∈ acc → e ∈ buildBasenames fs acc := by
  intro fs
  induction fs with
  | nil => intro acc e he; simpa [buildBasenames] using he
  | cons f fs ih =>
      intro acc e he
      simp only [buildBasenames]
      refine ih _ e ?_
      unfold insertNewKey
      by_cases h : (acc.any (fun x => x.1 = f)) = true
      · simpa [h] using he
      · simp [h]
        exact Or.inl he

theorem buildBasenames_shape : ∀ (fs : List String) (acc : List (String × String))
    (e : String × String), e ∈ buildBasenames fs acc →
    e ∈ acc ∨ (e.1 ∈ fs ∧ e.2 = genomeStem e.1) := by
  intro fs
  induction fs with
  | nil => intro acc e he; exact Or.inl (by simpa [buildBasenames] using he)
  | cons f fs ih =>
      intro acc e he
      simp only [buildBasenames] at he
      rcases ih _ e he with h | h
      · unfold insertNewKey at h
        by_cases hin : (acc.any (fun x => x.1 = f)) = true
        · simp [hin] at h
          exact Or.inl h
        · simp [hin] at h
          rcases h with h | h
          · exact Or.inl h
          · right
            rw [h]
            exact ⟨List.mem_cons_self f fs, rfl⟩
      · exact Or.inr ⟨List.mem_cons_of_mem f h.1, h.2⟩

theorem buildBasenames_key_mem : ∀ (fs : List String) (acc : List (String × String))
    (f : String), f ∈ fs → ∃ e ∈ buildBasenames fs acc, e.1 = f := by
  intro fs
  induction fs with
  | nil => intro acc f hf; simp at hf
  | cons g fs ih =>
      intro acc f hf
      rcases List.mem_cons.mp hf with h | h
      · subst h
        simp only [buildBasenames]
        by_cases hin : (acc.any (fun x => x.1 = f)) = true
        · rcases List.any_eq_true.mp hin with ⟨e, he, hkey⟩
          simp only [decide_eq_true_eq] at hkey
          refine ⟨e, ?_, hkey⟩
          refine buildBasenames_mono _ _ _ ?_
          unfold insertNewKey
          simp [hin]
          exact he
        · refine ⟨(f, genomeStem f), ?_, rfl⟩
          refine buildBasenames_mono _ _ _ ?_
          unfold insertNewKey
          simp [hin]
      · exact ih _ f h

theorem buildBasenames_nodup_keys : ∀ (fs : List String) (acc : List (String × String)),
    (acc.map Prod.fst).Nodup → ((buildBasenames fs acc).map Prod.fst).Nodup := by
  intro fs
  induction fs with
  | nil => intro acc h; simpa [buildBasenames] using h
  | cons f fs ih =>
      intro acc h
      simp only [buildBasenames]
      refine ih _ ?_
      unfold insertNewKey
      by_cases hin : (acc.any (fun x => x.1 = f)) = true
      · rw [if_pos hin]
        exact h
      · rw [if_neg hin]
        simp only [List.map_append, List.map_cons, List.map_nil]
        refine List.Nodup.append h (List.nodup_singleton f) ?_
        intro x hx hxf
        rw [List.mem_singleton] at hxf
        subst hxf
        rcases List.mem_map.mp hx with ⟨e, he, hkey⟩
        apply hin
        refine List.any_eq_true.mpr ⟨e, he, ?_⟩
        simp only [decide_eq_true_eq]
        exact hkey

/-- Two distinct members mapping to the same value force a count of at
least two in the mapped list. -/
theorem two_le_count_map {f : (String × String) → String}
    {l : List (String × String)} {a b : String × String} {v : String}
    (hab : a ≠ b) (ha : a ∈ l) (hb : b ∈ l) (hfa : f a = v) (hfb : f b = v) :
    2 ≤ (l.map f).count v := by
  induction l with
  | nil => simp at ha
  | cons x xs ih =>
      rcases List.mem_cons.mp ha with hax | hax
      · subst hax
        have hbx : b ∈ xs := by
          rcases List.mem_cons.mp hb with h | h
          · exact absurd h.symm hab
          · exact h
        have h1 : 0 < (xs.map f).count v :=
          List.count_pos_iff.mpr (hfb ▸ List.mem_map_of_mem f hbx)
        simp only [List.map_cons, List.count_cons, hfa, beq_self_eq_true, if_true]
        omega
      · rcases List.mem_cons.mp hb with hbx | hbx
        · subst hbx
          have h1 : 0 < (xs.map f).count v :=
            List.count_pos_iff.mpr (hfa ▸ List.mem_map_of_mem f hax)
          simp only [List.map_cons, List.count_cons, hfb, beq_self_eq_true, if_true]
          omega
        · have h1 := ih hax hbx
          simp only [List.map_cons, List.count_cons]
          omega

/-- A list with a repeated element strictly shrinks under `dedup`. -/
theorem dedup_length_lt_of_not_nodup {l : List String} (h : ¬ l.Nodup) :
    l.dedup.length < l.length := by
  have hsub : l.dedup.Sublist l := List.dedup_sublist l
  rcases Nat.lt_or_ge l.dedup.length l.length with hlt | hge
  · exact hlt
  · exfalso
    have hle : l.dedup.length ≤ l.length := hsub.length_le
    have heq : l.dedup.length = l.length := le_antisymm hle hge
    have : l.dedup = l := hsub.eq_of_length heq
    exact h (this ▸ List.nodup_dedup l)

/-- Two distinct input files with the same filename prefix make the
guard of line 191 fire. -/
theorem repeatedStemsFire_of_shared {files : List String} {f g : String}
    (hf : f ∈ files) (hg : g ∈ files) (hne : f ≠ g)
    (hstem : genomeStem f = genomeStem g) : repeatedStemsFire files = true := by
  rcases buildBasenames_key_mem files [] f hf with ⟨ef, hef, hkf⟩
  rcases buildBasenames_key_mem files [] g hg with ⟨eg, heg, hkg⟩
  have hvf : ef.2 = genomeStem f := by
    rcases buildBasenames_shape files [] ef hef with h | h
    · simp at h
    · rw [h.2, hkf]
  have hvg : eg.2 = genomeStem g := by
    rcases buildBasenames_shape files [] eg heg with h | h
    · simp at h
    · rw [h.2, hkg]
  have hefg : ef ≠ eg := by
    intro hc
    rw [hc, hkg] at hkf
    exact hne hkf.symm
  have hcount : 2 ≤ (stemValues files).count (genomeStem f) :=
    two_le_count_map hefg hef heg hvf (hstem ▸ hvg)
  have hnotnd : ¬ (stemValues files).Nodup := by
    intro hnd
    have := List.nodup_iff_count_le_one.mp hnd (genomeStem f)
    omega
  have hlen1 : (stemValues files).dedup.length < (stemValues files).length :=
    dedup_length_lt_of_not_nodup hnotnd
  have hlen2 : (stemValues files).length ≤ files.length := by
    unfold stemValues
    rw [List.length_map]
    simpa using buildBasenames_length files []
  unfold repeatedStemsFire
  simp only [decide_eq_true_eq]
  omega

/-- The report of lines 192-195 holds exactly the prefixes occurring
more than once, paired with their occurrence counts. -/
theorem repeatedStemsReport_spec (files : List String) (b : String) (c : Nat) :
    (b, c) ∈ repeatedStemsReport files ↔
      (stemValues files).count b = c ∧ 1 < c := by
  unfold repeatedStemsReport
  rw [List.mem_filterMap]
  constructor
  · rintro ⟨x, hx, hsome⟩
    by_cases h : 1 < (stemValues files).count x
    · simp only [h, if_true, Option.some.injEq, Prod.mk.injEq] at hsome
      rcases hsome with ⟨hb, hc⟩
      subst hb
      exact ⟨hc, hc ▸ h⟩
    · simp [h] at hsome
  · rintro ⟨hc, h1⟩
    refine ⟨b, ?_, ?_⟩
    · rw [List.mem_dedup]
      refine List.count_pos_iff.mp ?_
      omega
    · rw [hc, if_pos h1]

/-! ## Genome registry: integer identifiers

Embeds `main` line 575 (inputs sorted by lower-cased path) composed
with `create_schema_seed` lines 274-278. -/

theorem create_schema_seed_ok_inv {env : Env} {files : List String}
    {ptf : Option String} {p : Params} {st : Nat × Nat} {cpu : Nat}
    {res : SeedResult}
    (h : create_schema_seed env files ptf p st cpu = .ok res) :
    ∃ acq, acquireCds env cpu ptf p.prodigal_mode p.cds_input
        (inputBasenames files) = .ok acq ∧
      res.distinctRecs = dnaDistinct acq.cdsPerGenome ∧
      res.finalPool = corePool env p cpu acq ∧
      res.finalIds = globalBsrSurvivors p.bsr.1 p.bsr.2 env.score res.finalPool ∧
      env.makeDbStderr.length = 0 ∧
      ((chunksOfSize 100 res.finalPool).map env.runBlastStderr).flatten.length = 0 := by
  unfold create_schema_seed at h
  by_cases h1 : repeatedStemsFire files = true
  · rw [if_pos h1] at h
    exact absurd h (by simp)
  · rw [if_neg h1] at h
    cases hacq : acquireCds env cpu ptf p.prodigal_mode p.cds_input
        (inputBasenames files) with
    | error e =>
        rw [hacq] at h
        exact absurd h (by simp)
    | ok acq =>
        rw [hacq] at h
        simp only [] at h
        by_cases h2 : 0 < env.makeDbStderr.length
        · rw [if_pos h2] at h
          exact absurd h (by simp)
        · rw [if_neg h2] at h
          by_cases h3 : 0 < ((mapParallel cpu env.runBlastStderr
              (chunksOfSize 100 (corePool env p cpu acq))).flatten).length
          · rw [if_pos h3] at h
            exact absurd h (by simp)
          · rw [if_neg h3] at h
            simp only [Except.ok.injEq] at h
            refine ⟨acq, rfl, ?_, ?_, ?_, ?_, ?_⟩
            · rw [← h]
            · rw [← h]
            · rw [← h]
            · omega
            · rw [← h]
              simp only []
              rw [mapParallel_eq_map] at h3
              omega

/-! ## Length invariant through the pipeline -/

theorem translateOne_some_fst {env : Env} {minLen : Nat} {rs : List SeqRec}
    {i : String} {r : SeqRec} (h : translateOne env minLen rs i = some r) :
    r.1 = i := by
  unfold translateOne at h
  cases hl : lookupRec i rs with
  | none => rw [hl] at h; exact absurd h (by simp)
  | some sq =>
      rw [hl] at h
      have h' : (match env.tr sq with
        | none => none
        | some pr => if pr.length < minLen / 3 then none
                     else some (i, pr)) = some r := h
      cases ht : env.tr sq with
      | none => rw [ht] at h'; exact absurd h' (by simp)
      | some pr =>
          rw [ht] at h'
          have h2 : (if pr.length < minLen / 3 then none
                     else some (i, pr) : Option SeqRec) = some r := h'
          by_cases hlen : pr.length < minLen / 3
          · rw [if_pos hlen] at h2
            exact absurd h2 (by simp)
          · rw [if_neg hlen] at h2
            simp only [Option.some.injEq] at h2
            rw [← h2]

theorem proteinDistinct_fst_sub {env : Env} {minLen cpu : Nat} {rs : List SeqRec}
    {ids : List String} {i : String}
    (h : i ∈ (proteinDistinct env minLen cpu rs ids).map Prod.fst) : i ∈ ids := by
  rcases List.mem_map.mp h with ⟨r, hr, hfst⟩
  have hr2 : r ∈ translatedRecords env minLen cpu rs ids := dedupByKey_subset hr
  unfold translatedRecords at hr2
  rw [mapParallel_eq_map] at hr2
  rw [List.reduceOption_mem_iff] at hr2
  rcases List.mem_map.mp hr2 with ⟨j, hj, hjr⟩
  have := translateOne_some_fst hjr
  rw [← hfst, this]
  exact hj

theorem poolAfterSmall_minLen {minLen : Nat} {rs : List SeqRec} {i : String}
    (h : i ∈ poolAfterSmall minLen rs) :
    ∃ sq, lookupRec i rs = some sq ∧ minLen ≤ sq.length := by
  unfold poolAfterSmall at h
  rw [mem_sortCI, List.mem_dedup, List.mem_filter] at h
  rcases h with ⟨hmem, hsmall⟩
  simp only [decide_eq_true_eq] at hsmall
  rcases Option.isSome_iff_exists.mp (lookupRec_isSome hmem) with ⟨sq, hsq⟩
  refine ⟨sq, hsq, ?_⟩
  by_contra hlt
  push_neg at hlt
  apply hsmall
  unfold smallSeqids
  have hrec : (i, sq) ∈ rs := lookupRec_some_mem hsq
  have : (i, sq) ∈ rs.filter (fun r => r.2.length < minLen) :=
    List.mem_filter.mpr ⟨hrec, by simp [hlt]⟩
  exact List.mem_map_of_mem Prod.fst this

theorem corePool_minLen {env : Env} {p : Params} {cpu : Nat} {acq : AcqResult}
    {i : String} (h : i ∈ corePool env p cpu acq) :
    ∃ sq, lookupRec i (dnaDistinct acq.cdsPerGenome) = some sq ∧
      p.minimum_length ≤ sq.length := by
  unfold corePool at h
  simp only [] at h
  rw [mem_sortCI] at h
  have h4 := List.mem_of_mem_filter h
  have h3 := List.mem_of_mem_filter h4
  have h2 := List.mem_of_mem_filter h3
  rw [mem_sortCI] at h2
  exact poolAfterSmall_minLen (proteinDistinct_fst_sub h2)

/-! ## No surviving pair reaches the BSR threshold -/

theorem globalBsrSurvivors_no_offend {tn td : Nat}
    {score : String → String → Nat} {pool : List String} {a b : String}
    (ha : a ∈ globalBsrSurvivors tn td score pool)
    (hb : b ∈ globalBsrSurvivors tn td score pool) (hne : a ≠ b) :
    bsrGeB tn td (score a b) (score a a) = false ∧
    bsrGeB tn td (score b a) (score b b) = false := by
  unfold globalBsrSurvivors at ha hb
  have hamem := List.mem_of_mem_filter ha
  have hbmem := List.mem_of_mem_filter hb
  have hafilt := (List.mem_filter.mp ha).2
  have hbfilt := (List.mem_filter.mp hb).2
  by_contra hc
  rw [not_and_or] at hc
  have hoffab : globalOffends tn td score a b = true := by
    unfold globalOffends
    rcases hc with h | h
    · rw [Bool.not_eq_false] at h
      rw [h, Bool.true_or]
    · rw [Bool.not_eq_false] at h
      rw [h, Bool.or_true]
  have hoffba : globalOffends tn td score b a = true := by
    unfold globalOffends
    unfold globalOffends at hoffab
    rcases Bool.or_eq_true_iff.mp hoffab with h | h
    · rw [h, Bool.or_true]
    · rw [h, Bool.true_or]
  rcases strLt_total hne with hlt | hlt
  · have hexcl : globalExcludedB tn td score pool b = true := by
      unfold globalExcludedB
      refine List.any_eq_true.mpr ⟨a, hamem, ?_⟩
      rw [Bool.and_eq_true, Bool.and_eq_true]
      refine ⟨⟨?_, hoffba⟩, hlt⟩
      simp only [decide_eq_true_eq]
      exact hne
    rw [hexcl] at hbfilt
    exact absurd hbfilt (by simp)
  · have hexcl : globalExcludedB tn td score pool a = true := by
      unfold globalExcludedB
      refine List.any_eq_true.mpr ⟨b, hbmem, ?_⟩
      rw [Bool.and_eq_true, Bool.and_eq_true]
      refine ⟨⟨?_, hoffab⟩, hlt⟩
      simp only [decide_eq_true_eq]
      exact fun hba => hne hba.symm
    rw [hexcl] at hafilt
    exact absurd hafilt (by simp)

/-! ## Predict-mode failure semantics -/

theorem predictFastas_nil_iff {env : Env} {cpu : Nat} {ptf : Option String}
    {mode : String} {bns : List (String × String)} :
    (predictFastas (predictResults env cpu ptf mode bns)).length = 0 ↔
      ∀ pb ∈ bns, ∃ m, env.predict ptf mode pb.1 = .error m := by
  unfold predictResults predictFastas
  rw [mapParallel_eq_map, List.filterMap_map, List.length_eq_zero,
    List.filterMap_eq_nil_iff]
  constructor
  · intro h pb hpb
    have hthis := h pb hpb
    simp only [Function.comp] at hthis
    cases he : env.predict ptf mode pb.1 with
    | error m => exact ⟨m, rfl⟩
    | ok recs =>
        rw [he] at hthis
        exact absurd hthis (by simp)
  · intro h pb hpb
    rcases h pb hpb with ⟨m, hm⟩
    simp only [Function.comp]
    rw [hm]

theorem predictFailed_fst_mem {env : Env} {cpu : Nat} {ptf : Option String}
    {mode : String} {bns : List (String × String)} {pb : String × String}
    (hnd : (bns.map Prod.fst).Nodup) (hpb : pb ∈ bns) :
    pb.1 ∈ (predictFailed (predictResults env cpu ptf mode bns)).map Prod.fst ↔
      ∃ m, env.predict ptf mode pb.1 = .error m := by
  unfold predictResults predictFailed
  rw [mapParallel_eq_map, List.filterMap_map]
  constructor
  · intro h
    rcases List.mem_map.mp h with ⟨e, he, hfst⟩
    rcases List.mem_filterMap.mp he with ⟨qb, hqb, hsome⟩
    simp only [Function.comp] at hsome
    cases hpred : env.predict ptf mode qb.1 with
    | error m =>
        rw [hpred] at hsome
        simp only [Option.some.injEq] at hsome
        have hq1 : qb.1 = pb.1 := by rw [← hfst, ← hsome]
        have : qb = pb := List.inj_on_of_nodup_map hnd hqb hpb hq1
        rw [← this]
        exact ⟨m, hpred⟩
    | ok recs =>
        rw [hpred] at hsome
        exact absurd hsome (by simp)
  · rintro ⟨m, hm⟩
    refine List.mem_map.mpr ⟨(pb.1, m), ?_, rfl⟩
    refine List.mem_filterMap.mpr ⟨pb, hpb, ?_⟩
    simp only [Function.comp]
    rw [hm]

theorem acquirePredict_ok {env : Env} {cpu : Nat} {ptf : Option String}
    {mode : String} {bns : List (String × String)} {acq : AcqResult}
    (hnd : (bns.map Prod.fst).Nodup)
    (h : acquirePredict env cpu ptf mode bns = .ok acq) :
    acq.registry = bns.filter (fun pb => isOkE (env.predict ptf mode pb.1)) ∧
    acq.failedLines = bns.filterMap (fun pb =>
      match env.predict ptf mode pb.1 with
      | .error m => some (pb.1 ++ "\t" ++ m)
      | .ok _ => none) := by
  unfold acquirePredict at h
  by_cases h0 : (predictFastas (predictResults env cpu ptf mode bns)).length = 0
  · rw [if_pos h0] at h
    exact absurd h (by simp)
  · rw [if_neg h0] at h
    simp only [Except.ok.injEq] at h
    constructor
    · rw [← h]
      show bns.filter _ = bns.filter _
      apply List.filter_congr
      intro pb hpb
      cases hpred : env.predict ptf mode pb.1 with
      | ok recs =>
          have hnotmem : pb.1 ∉ (predictFailed
              (predictResults env cpu ptf mode bns)).map Prod.fst := by
            intro hc
            rcases (predictFailed_fst_mem hnd hpb).mp hc with ⟨m, hm⟩
            rw [hpred] at hm
            exact absurd hm (by simp)
          have hcf : ((predictFailed
              (predictResults env cpu ptf mode bns)).map Prod.fst).contains pb.1
              = false := by
            rw [← Bool.not_eq_true]
            intro hc
            exact hnotmem (List.elem_iff.mp hc)
          rw [hcf]
          rfl
      | error m =>
          have hmem : pb.1 ∈ (predictFailed
              (predictResults env cpu ptf mode bns)).map Prod.fst :=
            (predictFailed_fst_mem hnd hpb).mpr ⟨m, hpred⟩
          have hct : ((predictFailed
              (predictResults env cpu ptf mode bns)).map Prod.fst).contains pb.1
              = true := List.elem_iff.mpr hmem
          rw [hct]
          rfl
    · rw [← h]
      show (predictFailed (predictResults env cpu ptf mode bns)).map
          (fun f => f.1 ++ "\t" ++ f.2) = _
      unfold predictResults predictFailed
      rw [mapParallel_eq_map, List.filterMap_map, List.map_filterMap]
      apply List.filterMap_congr
      intro pb hpb
      simp only [Function.comp]
      cases hpred : env.predict ptf mode pb.1 with
      | error m => rfl
      | ok recs => rfl

/-! ## Claim theorems -/

/-- C1: after the final global all-vs-all BSR pass, every identifier
whose BSR against another surviving candidate reaches the configured
threshold has been removed from `schema_seqids`, so no two locus
representatives in the final schema have a pairwise BSR at or above
the threshold (in either alignment orientation). -/
theorem create_schema_seed_no_residual_homology (env : Env) (files : List String)
    (ptf : Option String) (p : Params) (st : Nat × Nat) (cpu : Nat)
    (res : SeedResult) (a b : String)
    (h : create_schema_seed env files ptf p st cpu = .ok res)
    (ha : a ∈ res.finalIds) (hb : b ∈ res.finalIds) (hne : a ≠ b) :
    bsrGeB p.bsr.1 p.bsr.2 (env.score a b) (env.score a a) = false ∧
    bsrGeB p.bsr.1 p.bsr.2 (env.score b a) (env.score b b) = false := by
  obtain ⟨acq, _, _, _, hfin, _, _⟩ := create_schema_seed_ok_inv h
  rw [hfin] at ha hb
  exact globalBsrSurvivors_no_offend ha hb hne

/-- C2: for a fixed input set and fixed parameters, running the
pipeline with any two worker counts produces identical results, in
particular the identical final locus identifier set and identical
representative sequence for every locus. -/
theorem create_schema_seed_cpu_deterministic (env : Env) (files : List String)
    (ptf : Option String) (p : Params) (st : Nat × Nat) (c1 c2 : Nat) :
    create_schema_seed env files ptf p st c1 =
      create_schema_seed env files ptf p st c2 := by
  simp only [create_schema_seed, acquireCds, acquirePredict, acquirePassthrough,
    predictResults, corePool, proteinDistinct, translatedRecords, mapParallel_eq_map]

/-- C3: every identifier surviving to the final schema names a
distinct DNA record of length at least `minimum_length`: the
small-sequence exclusion right after DNA deduplication removes every
shorter sequence and the later stages only filter the surviving set. -/
theorem create_schema_seed_length_invariant (env : Env) (files : List String)
    (ptf : Option String) (p : Params) (st : Nat × Nat) (cpu : Nat)
    (res : SeedResult) (i : String)
    (h : create_schema_seed env files ptf p st cpu = .ok res)
    (hid : i ∈ res.finalIds) :
    ∃ sq, lookupRec i res.distinctRecs = some sq ∧
      p.minimum_length ≤ sq.length := by
  obtain ⟨acq, _, hrecs, hpool, hfin, _, _⟩ := create_schema_seed_ok_inv h
  rw [hfin] at hid
  rw [hpool] at hid
  have hidp : i ∈ corePool env p cpu acq := by
    unfold globalBsrSurvivors at hid
    exact List.mem_of_mem_filter hid
  rw [hrecs]
  exact corePool_minLen hidp

/-- C4: when at least two input files share the same filename prefix
(the substring before the first dot), `create_schema_seed` exits with
the duplicate-prefix error before any processing, and the error report
lists exactly the prefixes occurring more than once, each with its
occurrence count. -/
theorem create_schema_seed_repeated_stems (env : Env) (files : List String)
    (ptf : Option String) (p : Params) (st : Nat × Nat) (cpu : Nat)
    (f g : String) (hf : f ∈ files) (hg : g ∈ files) (hne : f ≠ g)
    (hstem : genomeStem f = genomeStem g) :
    create_schema_seed env files ptf p st cpu =
      .error (.repeatedStems (repeatedStemsReport files)) ∧
    ∀ b c, ((b, c) ∈ repeatedStemsReport files ↔
      (stemValues files).count b = c ∧ 1 < c) := by
  constructor
  · unfold create_schema_seed
    rw [if_pos (repeatedStemsFire_of_shared hf hg hne hstem)]
  · intro b c
    exact repeatedStemsReport_spec files b c

/-- C5: in predict mode the acquisition stage aborts fatally exactly
when the predictor yields coding sequences for zero genomes; when at
least one genome succeeds it continues with the failed genomes pruned
from the registry and the per-genome failure reasons formatted as the
failure-report lines. -/
theorem acquireCds_predict_failure_semantics (env : Env) (cpu : Nat)
    (ptf : Option String) (mode : String) (bns : List (String × String))
    (hnd : (bns.map Prod.fst).Nodup) :
    (isOkE (acquireCds env cpu ptf mode false bns) = false ↔
       ∀ pb ∈ bns, ∃ m, env.predict ptf mode pb.1 = .error m) ∧
    (∀ acq, acquireCds env cpu ptf mode false bns = .ok acq →
       acq.registry = bns.filter (fun pb => isOkE (env.predict ptf mode pb.1)) ∧
       acq.failedLines = bns.filterMap (fun pb =>
         match env.predict ptf mode pb.1 with
         | .error m => some (pb.1 ++ "\t" ++ m)
         | .ok _ => none)) := by
  have hdef : acquireCds env cpu ptf mode false bns =
      acquirePredict env cpu ptf mode bns := rfl
  rw [hdef]
  constructor
  · by_cases h0 : (predictFastas (predictResults env cpu ptf mode bns)).length = 0
    · constructor
      · intro _
        exact predictFastas_nil_iff.mp h0
      · intro _
        unfold acquirePredict
        rw [if_pos h0]
        rfl
    · constructor
      · intro hfalse
        exfalso
        unfold acquirePredict at hfalse
        rw [if_neg h0] at hfalse
        exact absurd hfalse (by simp [isOkE])
      · intro hall
        exact absurd (predictFastas_nil_iff.mpr hall) h0
  · intro acq hacq
    exact acquirePredict_ok hnd hacq

/-- C6: a successful run certifies that the database builder produced
an empty error stream and that every invocation of the external
aligner in the final pass produced an empty error stream;
contrapositively, any non-empty error stream from either tool makes
the pipeline terminate fatally with no schema written. -/
theorem create_schema_seed_tool_errors_fatal (env : Env) (files : List String)
    (ptf : Option String) (p : Params) (st : Nat × Nat) (cpu : Nat)
    (res : SeedResult) (h : create_schema_seed env files ptf p st cpu = .ok res) :
    env.makeDbStderr.length = 0 ∧
    ((chunksOfSize 100 res.finalPool).map env.runBlastStderr).flatten.length = 0 := by
  obtain ⟨acq, _, _, _, _, hdb, hblast⟩ := create_schema_seed_ok_inv h
  exact ⟨hdb, hblast⟩

/-- C7: for every surviving locus, `create_schema_structure` writes
exactly one schema FASTA file, named by the sanitised representative
identifier with extension `.fasta` and holding a single record whose
header is the sanitised locus name followed by `_1`, and mirrors the
same representative into the `short` directory (provided the
sanitised identifiers do not collide). -/
theorem create_schema_structure_one_file_per_locus (sanitize : String → String)
    (reps : List SeqRec) (hnd : (reps.map (fun r => sanitize r.1)).Nodup) :
    (create_schema_structure sanitize reps).1 =
      reps.map (fun r => (sanitize r.1 ++ ".fasta",
        fastaAllele1 (sanitize r.1) r.2)) ∧
    (create_schema_structure sanitize reps).2 =
      reps.map (fun r => (sanitize r.1 ++ "_short.fasta",
        fastaAllele1 (sanitize r.1) r.2)) := by
  unfold create_schema_structure
  have hkeys : ((reps.map (fun r => (sanitize r.1, r.2))).map Prod.fst).Nodup := by
    rw [List.map_map]
    exact hnd
  have hd := dictOf_of_nodup hkeys
  constructor
  · show (dictOf (reps.map (fun r => (sanitize r.1, r.2)))).map _ = _
    rw [hd, List.map_map]
    rfl
  · show (dictOf (reps.map (fun r => (sanitize r.1, r.2)))).map _ = _
    rw [hd, List.map_map]
    rfl

/-- C8 counterexample: with inputs `a-c.fasta` and `a.fasta` the
registry assigns integer 1 to `a-c` and integer 2 to `a`, because ids
follow the case-insensitively sorted input paths (`-` sorts before
`.`), not the sorted external identifiers, whose order is `a`,
`a-c`. -/
theorem genomeIntegerMapping_not_stem_sorted :
    genomeIntegerMapping ["a-c.fasta", "a.fasta"] = [("a-c", 1), ("a", 2)] ∧
    sortCI ((genomeIntegerMapping ["a-c.fasta", "a.fasta"]).map Prod.fst) =
      ["a", "a-c"] ∧
    (genomeIntegerMapping ["a-c.fasta", "a.fasta"]).map Prod.fst ≠
      sortCI ((genomeIntegerMapping ["a-c.fasta", "a.fasta"]).map Prod.fst) := by
  refine ⟨by decide, by decide, by decide⟩

/-- C8 (amended): the registry maps the external genome identifiers
bijectively onto the dense integers 1..n, assigning them in the order
of the case-insensitively sorted input file paths (which need not be
the sorted order of the external identifiers themselves), so the
mapping is a function of the sorted input list alone. -/
theorem genomeIntegerMapping_spec (files : List String)
    (hnd : (registryStemOrder files).Nodup) :
    (genomeIntegerMapping files).map Prod.fst = registryStemOrder files ∧
    (genomeIntegerMapping files).map Prod.snd =
      List.range' 1 (registryStemOrder files).length ∧
    ((genomeIntegerMapping files).map Prod.fst).Nodup ∧
    ((genomeIntegerMapping files).map Prod.snd).Nodup := by
  have h1 : (genomeIntegerMapping files).map Prod.fst = registryStemOrder files := by
    unfold genomeIntegerMapping integerMapping
    rw [List.map_map]
    have hc : (Prod.fst ∘ fun p : Nat × String => (p.2, p.1 + 1)) =
        (Prod.snd : Nat × String → String) := rfl
    rw [hc, List.enum_map_snd]
  have h2 : (genomeIntegerMapping files).map Prod.snd =
      List.range' 1 (registryStemOrder files).length := by
    unfold genomeIntegerMapping integerMapping
    rw [List.map_map]
    have hc : (Prod.snd ∘ fun p : Nat × String => (p.2, p.1 + 1)) =
        (fun p : Nat × String => p.1 + 1) := rfl
    rw [hc]
    have h3 : (List.enum (registryStemOrder files)).map
        (fun p : Nat × String => p.1 + 1) =
        ((List.enum (registryStemOrder files)).map Prod.fst).map
          (fun i => i + 1) := by
      rw [List.map_map]
      rfl
    rw [h3, List.enum_map_fst, List.range'_eq_map_range]
    apply List.map_congr_left
    intro a _
    omega
  refine ⟨h1, h2, ?_, ?_⟩
  · rw [h1]
    exact hnd
  · rw [h2]
    exact List.nodup_range' 1 (registryStemOrder files).length

/-- C9: the size threshold is persisted into the schema config but
never used during schema creation: two runs differing only in
`size_threshold` produce identical results (in particular identical
schema FASTA files), while the written config records the value. -/
theorem size_threshold_persisted_not_used (env : Env) (files : List String)
    (ptf : Option String) (p : Params) (st1 st2 : Nat × Nat) (cpu : Nat)
    (ph : Option Nat) (ver : String) :
    create_schema_seed env files ptf p st1 cpu =
      create_schema_seed env files ptf p st2 cpu ∧
    (write_schema_config p.bsr ph p.translation_table p.minimum_length ver st1
        p.word_size p.window_size p.clustering_sim p.representative_filter
        p.intra_filter).size_threshold = st1 :=
  ⟨rfl, rfl⟩

/-- C10: in `meta` mode with a training file provided, the pipeline
runs with no training file (the path is replaced by `None` before
`create_schema_seed`), yet `run_create_schema` still copies the
original training file into the schema directory and records its hash
in the schema config. -/
theorem meta_mode_training_file (env : Env) (files : List String) (p : Params)
    (st : Nat × Nat) (cpu : Nat) (hashPtf : String → Nat) (ptf : String)
    (hmode : p.prodigal_mode = "meta") :
    create_schema_main env files (some ptf) p st cpu =
      create_schema_seed env (sortCI files) none p st cpu ∧
    (runCreateSchemaPtf hashPtf (some ptf)).1 = true ∧
    (runCreateSchemaPtf hashPtf (some ptf)).2 = some (hashPtf ptf) := by
  refine ⟨?_, rfl, rfl⟩
  unfold create_schema_main mainTrainingFile
  rw [hmode]
  simp

/-! ## Concrete fixtures and witnesses -/

/-- Witness for C1 at the concrete run: the two surviving loci have
both BSR orientations below the threshold. -/
theorem create_schema_seed_no_residual_homology_witness :
    bsrGeB testParams.bsr.1 testParams.bsr.2
        (testEnv.score "a-protein_1" "b-protein_1")
        (testEnv.score "a-protein_1" "a-protein_1") = false ∧
    bsrGeB testParams.bsr.1 testParams.bsr.2
        (testEnv.score "b-protein_1" "a-protein_1")
        (testEnv.score "b-protein_1" "b-protein_1") = false :=
  create_schema_seed_no_residual_homology testEnv testFiles none testParams (2, 10)
    4 testRes "a-protein_1" "b-protein_1" rfl (by decide) (by decide) (by decide)

/-- Witness for C3 at the concrete run: a surviving identifier has a
distinct DNA record of at least the minimum length. -/
theorem create_schema_seed_length_invariant_witness :
    ∃ sq, lookupRec "a-protein_1" testRes.distinctRecs = some sq ∧
      testParams.minimum_length ≤ sq.length :=
  create_schema_seed_length_invariant testEnv testFiles none testParams (2, 10) 4
    testRes "a-protein_1" rfl (by decide)

/-- Witness for C4 at the concrete duplicate-prefix inputs. -/
theorem create_schema_seed_repeated_stems_witness :
    create_schema_seed testEnv dupFiles none testParams (2, 10) 4 =
      .error (.repeatedStems (repeatedStemsReport dupFiles)) ∧
    ∀ b c, ((b, c) ∈ repeatedStemsReport dupFiles ↔
      (stemValues dupFiles).count b = c ∧ 1 < c) :=
  create_schema_seed_repeated_stems testEnv dupFiles none testParams (2, 10) 4
    "x/a.fasta" "y/a.fna" (by decide) (by decide) (by decide) (by decide)

/-- Witness for C5 at the concrete mixed-outcome predictor. -/
theorem acquireCds_predict_failure_semantics_witness :
    ((isOkE (acquireCds predEnv 3 none "single" false predBns) = false ↔
       ∀ pb ∈ predBns, ∃ m, predEnv.predict none "single" pb.1 = .error m) ∧
    (∀ acq, acquireCds predEnv 3 none "single" false predBns = .ok acq →
       acq.registry = predBns.filter
         (fun pb => isOkE (predEnv.predict none "single" pb.1)) ∧
       acq.failedLines = predBns.filterMap (fun pb =>
         match predEnv.predict none "single" pb.1 with
         | .error m => some (pb.1 ++ "\t" ++ m)
         | .ok _ => none))) :=
  acquireCds_predict_failure_semantics predEnv 3 none "single" predBns (by decide)

/-- Witness for C6 at the concrete run: both external error streams of
the successful run were empty. -/
theorem create_schema_seed_tool_errors_fatal_witness :
    testEnv.makeDbStderr.length = 0 ∧
    ((chunksOfSize 100 testRes.finalPool).map
      testEnv.runBlastStderr).flatten.length = 0 :=
  create_schema_seed_tool_errors_fatal testEnv testFiles none testParams (2, 10) 4
    testRes rfl

/-- Witness for C7 at the concrete representatives. -/
theorem create_schema_structure_one_file_per_locus_witness :
    (create_schema_structure (fun s => s) demoReps).1 =
      demoReps.map (fun r => (r.1 ++ ".fasta", fastaAllele1 r.1 r.2)) ∧
    (create_schema_structure (fun s => s) demoReps).2 =
      demoReps.map (fun r => (r.1 ++ "_short.fasta", fastaAllele1 r.1 r.2)) :=
  create_schema_structure_one_file_per_locus (fun s => s) demoReps (by decide)

/-- Witness for the amended C8 at concrete inputs with distinct
prefixes. -/
theorem genomeIntegerMapping_spec_witness :
    (genomeIntegerMapping ["a.fasta", "b.fasta"]).map Prod.fst =
      registryStemOrder ["a.fasta", "b.fasta"] ∧
    (genomeIntegerMapping ["a.fasta", "b.fasta"]).map Prod.snd =
      List.range' 1 (registryStemOrder ["a.fasta", "b.fasta"]).length ∧
    ((genomeIntegerMapping ["a.fasta", "b.fasta"]).map Prod.fst).Nodup ∧
    ((genomeIntegerMapping ["a.fasta", "b.fasta"]).map Prod.snd).Nodup :=
  genomeIntegerMapping_spec ["a.fasta", "b.fasta"] (by decide)

/-- Witness for C10 at the concrete `meta`-mode run (with string
length standing in for the hash function). -/
theorem meta_mode_training_file_witness :
    create_schema_main testEnv testFiles (some "sp.trn") metaParams (2, 10) 4 =
      create_schema_seed testEnv (sortCI testFiles) none metaParams (2, 10) 4 ∧
    (runCreateSchemaPtf String.length (some "sp.trn")).1 = true ∧
    (runCreateSchemaPtf String.length (some "sp.trn")).2 =
      some (String.length "sp.trn") :=
  meta_mode_training_file testEnv testFiles metaParams (2, 10) 4 String.length
    "sp.trn" rfl
